import Mathlib

/-!
# Verification of the compute-shader scheduling pipeline

A shallow embedding of `src/compute_shader.rs` of `bevy_pixel_buffer`.

Modelling conventions:
* Asset identities (`AssetId<Image>`, `AssetId<S>`) are `Nat`.
* Shader asset snapshots (the cloned `S` values) are `Nat`.
* `HashMap` resources (`PreparedImages`, `PreparedShaders`) are association
  lists with insert-replace semantics (`mapInsert` removes the old binding
  before consing), so each key occurs at most once and `mapLen` matches
  `HashMap::len`.
* `HashSet` values (`buffer_images`, `changed`, `invalid`) are `Finset Nat`.
* GPU bind-group objects are identified by a freshness counter (`nonce`)
  threaded through the state: each `create_bind_group` / `as_bind_group`
  call yields a distinct identifier, which lets us talk about an entry being
  "reused" (same identifier) versus "rebuilt" (different identifier).
* `as_bind_group` outcomes (`Ok` / `InvalidSamplerType` / `RetryNextUpdate`)
  are a per-frame environment function `Nat → BindOutcome` from the snapshot
  value, abstracting the GPU device, `RenderAssets<GpuImage>` and fallback
  image inputs of `prepare_shader`.
* The render-graph node's GPU commands (`set_bind_group`, `set_pipeline`,
  `dispatch_workgroups`, the `error!` log) are reified as a `Cmd` list.
-/

/-- `UVec2`, the 2-D unsigned vector used for texture sizes and workgroups. -/
structure UVec2 where
  x : Nat
  y : Nat
deriving DecidableEq

/-- Lookup in an association-list map keyed by `Nat`. -/
def mapFind? {β : Type} : List (Nat × β) → Nat → Option β
  | [], _ => none
  | p :: m, k => if p.1 = k then some p.2 else mapFind? m k

/-- `HashMap::contains_key`. -/
def mapContains {β : Type} (m : List (Nat × β)) (k : Nat) : Bool :=
  (mapFind? m k).isSome

/-- `HashMap::retain` over keys. -/
def mapRetain {β : Type} (m : List (Nat × β)) (f : Nat → Bool) : List (Nat × β) :=
  m.filter (fun p => f p.1)

/-- `HashMap::remove`. -/
def mapErase {β : Type} (m : List (Nat × β)) (k : Nat) : List (Nat × β) :=
  m.filter (fun p => decide (p.1 ≠ k))

/-- `HashMap::insert` (replaces any existing binding for the key). -/
def mapInsert {β : Type} (m : List (Nat × β)) (k : Nat) (v : β) : List (Nat × β) :=
  (k, v) :: mapErase m k

/-- `HashMap::len`. -/
def mapLen {β : Type} (m : List (Nat × β)) : Nat :=
  m.length

/-- The set of image identities inserted by iterating a buffer query
(`buffer_images` in `cs_extract` / `prepare_images`). -/
def bufferSet (l : List Nat) : Finset Nat :=
  l.foldl (fun s i => insert i s) ∅

/-- `AssetEvent<S>` for the shader asset type. -/
inductive SEvent where
  | added (id : Nat)
  | modified (id : Nat)
  | loadedWithDeps (id : Nat)
  | removed (id : Nat)
  | unused (id : Nat)
deriving DecidableEq

/-- One step of the shader-event loop of `cs_extract`
(`compute_shader.rs:247-259`): change events insert into the `changed` set,
removal events erase from it and push onto the `removed` list. -/
def extractStep (acc : Finset Nat × List Nat) (e : SEvent) : Finset Nat × List Nat :=
  match e with
  | .added id | .modified id | .loadedWithDeps id => (insert id acc.1, acc.2)
  | .removed id | .unused id => (acc.1.erase id, acc.2 ++ [id])

/-- The `(changed, removed)` pair computed by `cs_extract` from this frame's
shader asset events. -/
def updateShaderCache (events : List SEvent) : Finset Nat × List Nat :=
  events.foldl extractStep (∅, [])

/-- The identities extracted as changed by `cs_extract`: members of the
`changed` set whose asset is still gettable from `Assets<S>`
(`compute_shader.rs:261-266`). -/
def extractedIds (events : List SEvent) (assets : Nat → Option Nat) : Finset Nat :=
  (updateShaderCache events).1.filter (fun id => (assets id).isSome)

/-- Whether a shader event is a change (added/modified/loaded-with-deps)
event for `id`. -/
def isChangeOf (e : SEvent) (id : Nat) : Bool :=
  match e with
  | .added i | .modified i | .loadedWithDeps i => i == id
  | _ => false

/-- Whether a shader event is a removal (removed/unused) event for `id`. -/
def isRemovalOf (e : SEvent) (id : Nat) : Bool :=
  match e with
  | .removed i | .unused i => i == id
  | _ => false

/-- `AssetEvent<Image>`. -/
inductive IEvent where
  | added (id : Nat)
  | modified (id : Nat)
  | removed (id : Nat)
  | loadedWithDeps (id : Nat)
  | unused (id : Nat)
deriving DecidableEq

/-- One step of the image-event loop of `cs_extract`
(`compute_shader.rs:271-284`): the four tracked event kinds insert the id
into `invalid` when it is one of the current buffer images; `Unused` falls
through to the wildcard arm. -/
def imageStep (bufs : Finset Nat) (inv : Finset Nat) (e : IEvent) : Finset Nat :=
  match e with
  | .added id | .modified id | .removed id | .loadedWithDeps id =>
      if id ∈ bufs then insert id inv else inv
  | .unused _ => inv

/-- The `InvalidatedImages` set produced by `cs_extract`: `buffers` lists the
image ids of the current pixel-buffer entities carrying a shader handle. -/
def invalidImages (buffers : List Nat) (events : List IEvent) : Finset Nat :=
  events.foldl (imageStep (bufferSet buffers)) ∅

/-- Whether an image event concerns `id` through one of the four tracked
event kinds. -/
def touchesImage (e : IEvent) (id : Nat) : Bool :=
  match e with
  | .added i | .modified i | .removed i | .loadedWithDeps i => i == id
  | .unused _ => false

/-- `PreparedImage`: the texture bind group (identified by its creation
nonce) and the image size recorded at preparation time. -/
structure PImage where
  textureBindGroup : Nat
  size : UVec2
deriving DecidableEq

/-- The state carried across `prepare_images` frames: the
`PreparedImages<S>` map and the bind-group freshness counter. -/
structure ImageState where
  prepared : List (Nat × PImage)
  nonce : Nat
deriving DecidableEq

/-- The body of the buffer loop of `prepare_images`
(`compute_shader.rs:314-341`): record the id in `buffer_images`; if the id
has no prepared entry and its GPU image is resolvable, create a bind group
(fresh nonce) and insert the entry. -/
def prepareImagesStep (gpu : Nat → Option UVec2)
    (acc : List (Nat × PImage) × Finset Nat × Nat) (id : Nat) :
    List (Nat × PImage) × Finset Nat × Nat :=
  if mapContains acc.1 id then (acc.1, insert id acc.2.1, acc.2.2)
  else
    match gpu id with
    | some sz => (mapInsert acc.1 id (PImage.mk acc.2.2 sz), insert id acc.2.1, acc.2.2 + 1)
    | none => (acc.1, insert id acc.2.1, acc.2.2)

/-- `prepare_images` (`compute_shader.rs:301-348`): drop invalidated
entries, lazily prepare the live images whose GPU image resolves, then—only
when the map size differs from the live-set size—prune entries whose key is
not live. `gpu` is this frame's `RenderAssets<GpuImage>` lookup, returning
the image size when resolvable. -/
def prepareImages (invalid : Finset Nat) (buffers : List Nat)
    (gpu : Nat → Option UVec2) (st : ImageState) : ImageState :=
  let m0 := mapRetain st.prepared (fun id => decide (id ∉ invalid))
  let r := buffers.foldl (prepareImagesStep gpu) (m0, ∅, st.nonce)
  let m2 := if mapLen r.1 ≠ r.2.1.card then mapRetain r.1 (fun id => decide (id ∈ r.2.1)) else r.1
  ImageState.mk m2 r.2.2

/-- The three outcomes of `prepare_shader` (`compute_shader.rs:413-430`),
i.e. of `S::as_bind_group`. -/
inductive BindOutcome where
  | ok
  | invalidSampler
  | retryNextUpdate
deriving DecidableEq

/-- `PreparedShader`: the user bind group, identified by its creation
nonce. -/
structure PShader where
  userBindGroup : Nat
deriving DecidableEq

/-- The state carried across `prepare_shaders` frames: the
`PreparedShaders<S>` map (`render_materials`), the
`PrepareNextFrameShaders<S>` retry queue, and the bind-group freshness
counter. -/
structure ShaderState where
  materials : List (Nat × PShader)
  queue : List (Nat × Nat)
  nonce : Nat
deriving DecidableEq

/-- The shared match of both loops of `prepare_shaders`
(`compute_shader.rs:380-391` and `398-410`): on `Ok` insert the prepared
entry, on `InvalidSamplerType` log and drop, on `RetryNextUpdate` push onto
the next-frame queue. -/
def processAsset (env : Nat → BindOutcome) (st : ShaderState) (p : Nat × Nat) : ShaderState :=
  match env p.2 with
  | .ok =>
      { st with
        materials := mapInsert st.materials p.1 (PShader.mk st.nonce)
        nonce := st.nonce + 1 }
  | .invalidSampler => st
  | .retryNextUpdate => { st with queue := st.queue ++ [p] }

/-- `prepare_shaders` (`compute_shader.rs:370-411`): drain last frame's
retry queue, then remove the entries of removed assets, then process the
newly extracted assets. `env` gives this frame's `as_bind_group` outcome
for a snapshot. -/
def prepareShaders (env : Nat → BindOutcome) (extracted : List (Nat × Nat))
    (removed : List Nat) (st : ShaderState) : ShaderState :=
  let st1 := List.foldl (processAsset env) { st with queue := [] } st.queue
  let st2 := { st1 with materials := List.foldl mapErase st1.materials removed }
  List.foldl (processAsset env) st2 extracted

/-- Phase 1 of `prepare_shaders` as the spec describes it: re-attempt the
carried-over transient-failure queue in FIFO order. -/
def retryPhase (env : Nat → BindOutcome) (st : ShaderState) : ShaderState :=
  List.foldl (processAsset env) { st with queue := [] } st.queue

/-- Phase 2 of `prepare_shaders`: drop the prepared entries of the assets
removed this frame. -/
def removedPhase (removed : List Nat) (st : ShaderState) : ShaderState :=
  { st with materials := List.foldl mapErase st.materials removed }

/-- Phase 3 of `prepare_shaders`: attempt preparation of every newly
extracted (changed) asset. -/
def changedPhase (env : Nat → BindOutcome) (extracted : List (Nat × Nat))
    (st : ShaderState) : ShaderState :=
  List.foldl (processAsset env) st extracted

/-- Whether an `as_bind_group` outcome is the transient
`RetryNextUpdate`. -/
def isRetry (o : BindOutcome) : Bool :=
  match o with
  | .retryNextUpdate => true
  | _ => false

/-- One frame of inputs to `prepare_shaders`. -/
structure SFrame where
  env : Nat → BindOutcome
  extracted : List (Nat × Nat)
  removed : List Nat

/-- Run `prepare_shaders` for one frame of inputs. -/
def stepFrame (st : ShaderState) (f : SFrame) : ShaderState :=
  prepareShaders f.env f.extracted f.removed st

/-- Run `prepare_shaders` over a sequence of frames. -/
def runShaders (fs : List SFrame) (st : ShaderState) : ShaderState :=
  fs.foldl stepFrame st

/-- `ComputeShaderInfo`: one dispatch-queue entry
(`compute_shader.rs:434-438`). -/
structure ComputeShaderInfo where
  textureBindGroup : Nat
  userBindGroup : Nat
  workgroups : UVec2
deriving DecidableEq

/-- `cs_queue_bind_group` (`compute_shader.rs:440-462`): join the buffer
entities' (image id, shader id) pairs with the two prepared maps; the
workgroup extents come from the shader type's `workgroups` function applied
to the prepared image's size. -/
def csQueueBindGroup (buffers : List (Nat × Nat))
    (preparedImages : List (Nat × PImage)) (preparedShaders : List (Nat × PShader))
    (wg : UVec2 → UVec2) : List ComputeShaderInfo :=
  List.filterMap
    (fun (b : Nat × Nat) =>
      match mapFind? preparedImages b.1, mapFind? preparedShaders b.2 with
      | some pi, some ps =>
          some (ComputeShaderInfo.mk pi.textureBindGroup ps.userBindGroup (wg pi.size))
      | _, _ => none)
    buffers

/-- The node state enum `State` (`compute_shader.rs:469-472`): `Loading`
until the pipeline compiles, then `Update` (the spec's "Ready"). -/
inductive NodeState where
  | loading
  | update
deriving DecidableEq

/-- `ComputeShaderNode::update` (`compute_shader.rs:484-498`): in `Loading`,
move to `Update` exactly when the cached pipeline state is `Ok`; in
`Update`, do nothing. -/
def nodeUpdate (pipelineOk : Bool) (s : NodeState) : NodeState :=
  match s with
  | .loading => if pipelineOk then .update else .loading
  | .update => .update

/-- Iterate `ComputeShaderNode::update` over a sequence of frames, each
frame reporting whether the cached pipeline state is `Ok`. -/
def runUpdates (bs : List Bool) (s : NodeState) : NodeState :=
  bs.foldl (fun s b => nodeUpdate b s) s

/-- The GPU commands recorded by `ComputeShaderNode::run`, plus the
`error!` log call. -/
inductive Cmd where
  | setBindGroup (slot : Nat) (bindGroup : Nat)
  | setPipeline
  | dispatch (x y z : Nat)
  | logError
deriving DecidableEq

/-- `NodeRunError`: `run` never constructs one. -/
inductive NodeRunError where

/-- The loop body of `ComputeShaderNode::run` (`compute_shader.rs:516-531`)
for one queue entry: bind the texture bind group at slot 0 and the user
bind group at slot 1; if the compiled pipeline is retrievable, bind it and
dispatch with Z extent 1, otherwise log an error. -/
def runEntry (pipelineAvail : Bool) (s : ComputeShaderInfo) : List Cmd :=
  [Cmd.setBindGroup 0 s.textureBindGroup, Cmd.setBindGroup 1 s.userBindGroup] ++
    (if pipelineAvail then [Cmd.setPipeline, Cmd.dispatch s.workgroups.x s.workgroups.y 1]
     else [Cmd.logError])

/-- `ComputeShaderNode::run` (`compute_shader.rs:500-534`): a no-op in
`Loading`; otherwise process every queue entry. The returned value is the
function's `Result`, which is always `Ok(())`. -/
def nodeRun (st : NodeState) (pipelineAvail : Bool) (queue : List ComputeShaderInfo) :
    List Cmd × Except NodeRunError Unit :=
  match st with
  | .loading => ([], Except.ok ())
  | .update => (queue.flatMap (runEntry pipelineAvail), Except.ok ())

/-- Whether a command binds the pipeline or dispatches workgroups (the two
actions guarded by the pipeline-cache lookup in `run`). -/
def isPipelineOrDispatch (c : Cmd) : Bool :=
  match c with
  | .setPipeline => true
  | .dispatch _ _ _ => true
  | _ => false

/-- Whether a command, if it is a dispatch, has Z extent 1. -/
def dispatchDepthOne (c : Cmd) : Bool :=
  match c with
  | .dispatch _ _ z => z == 1
  | _ => true

/-- Concrete first frame for the C1 counterexample: images 0 and 2 are live
and resolvable, so both get prepared entries. -/
def cxImgState1 : ImageState :=
  prepareImages ∅ [0, 2] (fun i => if i = 0 ∨ i = 2 then some (UVec2.mk 16 16) else none)
    (ImageState.mk [] 0)

/-- Concrete second frame for the C1 counterexample: the live set is now
{0, 1}, image 1 fails to resolve, and no invalidation occurs; the map and
live set have equal sizes, so the prune is skipped and the stale entry for
image 2 survives. -/
def cxImgState2 : ImageState :=
  prepareImages ∅ [0, 1] (fun i => if i = 0 then some (UVec2.mk 16 16) else none) cxImgState1

/-- Concrete shader state for the C4 counterexample: asset 7 (snapshot 1)
prepared successfully in an earlier frame. -/
def cxPermState1 : ShaderState :=
  prepareShaders (fun _ => BindOutcome.ok) [(7, 1)] [] (ShaderState.mk [] [] 0)

/-- Concrete shader state for the C7 counterexample: asset 7 was prepared
from snapshot 1, then a change to snapshot 2 failed transiently, leaving
(7, 2) on the retry queue while the old entry is still in the map. -/
def cxRetryState2 : ShaderState :=
  prepareShaders (fun a => if a = 2 then BindOutcome.retryNextUpdate else BindOutcome.ok)
    [(7, 2)] []
    (prepareShaders (fun _ => BindOutcome.ok) [(7, 1)] [] (ShaderState.mk [] [] 0))

/-! ## Association-list map lemmas -/

theorem mapFind?_retain {β : Type} (f : Nat → Bool) (id : Nat) (h : f id = true) :
    ∀ m : List (Nat × β), mapFind? (mapRetain m f) id = mapFind? m id := by
  intro m
  induction m with
  | nil => rfl
  | cons p m ih =>
    cases hf : f p.1 with
    | true =>
      rw [show mapRetain (p :: m) f = p :: mapRetain m f from by
        simp [mapRetain, List.filter_cons, hf]]
      by_cases hp : p.1 = id
      · simp only [mapFind?, if_pos hp]
      · simp only [mapFind?, if_neg hp]; exact ih
    | false =>
      rw [show mapRetain (p :: m) f = mapRetain m f from by
        simp [mapRetain, List.filter_cons, hf]]
      have hp : p.1 ≠ id := fun he => by rw [he, h] at hf; cases hf
      rw [show mapFind? (p :: m) id = mapFind? m id from by simp only [mapFind?, if_neg hp]]
      exact ih

theorem mapContains_retain {β : Type} (f : Nat → Bool) (id : Nat) :
    ∀ m : List (Nat × β),
      mapContains (mapRetain m f) id = true → mapContains m id = true ∧ f id = true := by
  intro m
  induction m with
  | nil => intro h; exact absurd h (by simp [mapRetain, mapContains, mapFind?])
  | cons p m ih =>
    intro h
    cases hf : f p.1 with
    | false =>
      rw [show mapRetain (p :: m) f = mapRetain m f from by
        simp [mapRetain, List.filter_cons, hf]] at h
      rcases ih h with ⟨h1, h2⟩
      refine ⟨?_, h2⟩
      by_cases hp : p.1 = id
      · simp [mapContains, mapFind?, hp]
      · simpa [mapContains, mapFind?, if_neg hp] using h1
    | true =>
      rw [show mapRetain (p :: m) f = p :: mapRetain m f from by
        simp [mapRetain, List.filter_cons, hf]] at h
      by_cases hp : p.1 = id
      · exact ⟨by simp [mapContains, mapFind?, hp], by rw [← hp]; exact hf⟩
      · rw [show mapContains (p :: mapRetain m f) id = mapContains (mapRetain m f) id from by
          simp [mapContains, mapFind?, if_neg hp]] at h
        rcases ih h with ⟨h1, h2⟩
        exact ⟨by simpa [mapContains, mapFind?, if_neg hp] using h1, h2⟩

theorem mapFind?_erase_ne {β : Type} (m : List (Nat × β)) (k id : Nat) (h : k ≠ id) :
    mapFind? (mapErase m k) id = mapFind? m id :=
  mapFind?_retain (fun x => decide (x ≠ k)) id (by simp [Ne.symm h]) m

theorem mapContains_erase_imp {β : Type} (k id : Nat) (m : List (Nat × β))
    (h : mapContains (mapErase m k) id = true) : mapContains m id = true :=
  (mapContains_retain (fun x => decide (x ≠ k)) id m h).1

theorem mapFind?_insert_self {β : Type} (m : List (Nat × β)) (k : Nat) (v : β) :
    mapFind? (mapInsert m k v) k = some v := by
  simp [mapInsert, mapFind?]

theorem mapFind?_insert_ne {β : Type} (m : List (Nat × β)) (k id : Nat) (v : β) (h : k ≠ id) :
    mapFind? (mapInsert m k v) id = mapFind? m id := by
  simp only [mapInsert, mapFind?, if_neg h]
  exact mapFind?_erase_ne m k id h

theorem mapContains_insert_self {β : Type} (m : List (Nat × β)) (k : Nat) (v : β) :
    mapContains (mapInsert m k v) k = true := by
  simp [mapContains, mapFind?_insert_self]

theorem mapContains_insert_ne {β : Type} (m : List (Nat × β)) (k id : Nat) (v : β) (h : k ≠ id) :
    mapContains (mapInsert m k v) id = mapContains m id := by
  simp [mapContains, mapFind?_insert_ne m k id v h]

theorem mapContains_insert_of {β : Type} (m : List (Nat × β)) (k id : Nat) (v : β)
    (h : mapContains m id = true) : mapContains (mapInsert m k v) id = true := by
  by_cases hk : k = id
  · subst hk; exact mapContains_insert_self m k v
  · rw [mapContains_insert_ne m k id v hk]; exact h

theorem mapContains_erase_false {β : Type} (m : List (Nat × β)) (k id : Nat)
    (h : mapContains m id = false) : mapContains (mapErase m k) id = false := by
  cases hc : mapContains (mapErase m k) id with
  | false => rfl
  | true => exact absurd (mapContains_erase_imp k id m hc) (by simp [h])

theorem mapFind?_eraseFold {β : Type} (id : Nat) :
    ∀ (rm : List Nat) (m : List (Nat × β)), id ∉ rm →
      mapFind? (List.foldl mapErase m rm) id = mapFind? m id := by
  intro rm
  induction rm with
  | nil => intro m _; rfl
  | cons k rm ih =>
    intro m h
    rw [List.foldl_cons]
    rw [ih (mapErase m k) (fun hm => h (List.mem_cons.mpr (Or.inr hm)))]
    exact mapFind?_erase_ne m k id (fun he => h (List.mem_cons.mpr (Or.inl he.symm)))

theorem mapContains_eraseFold {β : Type} (id : Nat) (rm : List Nat) (m : List (Nat × β))
    (h : id ∉ rm) : mapContains (List.foldl mapErase m rm) id = mapContains m id := by
  simp [mapContains, mapFind?_eraseFold id rm m h]

theorem mapContains_eraseFold_false {β : Type} (id : Nat) (rm : List Nat) :
    ∀ m : List (Nat × β), mapContains m id = false →
      mapContains (List.foldl mapErase m rm) id = false := by
  induction rm with
  | nil => intro m h; exact h
  | cons k rm ih =>
    intro m h
    rw [List.foldl_cons]
    exact ih _ (mapContains_erase_false m k id h)

/-! ## `prepare_images` fold lemmas -/

theorem imagesFold_seen (gpu : Nat → Option UVec2) :
    ∀ (buffers : List Nat) (m : List (Nat × PImage)) (s : Finset Nat) (n : Nat),
      (buffers.foldl (prepareImagesStep gpu) (m, s, n)).2.1
        = buffers.foldl (fun t i => insert i t) s := by
  intro buffers
  induction buffers with
  | nil => intros; rfl
  | cons j bs ih =>
    intro m s n
    rw [List.foldl_cons, List.foldl_cons]
    have hstep : (prepareImagesStep gpu (m, s, n) j).2.1 = insert j s := by
      unfold prepareImagesStep
      cases hc : mapContains m j with
      | true => simp [hc]
      | false => cases hg : gpu j <;> simp [hc, hg]
    calc (List.foldl (prepareImagesStep gpu) (prepareImagesStep gpu (m, s, n) j) bs).2.1
        = List.foldl (fun t i => insert i t) (prepareImagesStep gpu (m, s, n) j).2.1 bs :=
          ih _ _ _
      _ = List.foldl (fun t i => insert i t) (insert j s) bs := by rw [hstep]

theorem imagesFold_find? (gpu : Nat → Option UVec2) (id : Nat) :
    ∀ (buffers : List Nat) (m : List (Nat × PImage)) (s : Finset Nat) (n : Nat),
      mapContains m id = true →
      mapFind? (buffers.foldl (prepareImagesStep gpu) (m, s, n)).1 id = mapFind? m id := by
  intro buffers
  induction buffers with
  | nil => intro m s n _; rfl
  | cons j bs ih =>
    intro m s n h
    rw [List.foldl_cons]
    cases hc : mapContains m j with
    | true =>
      have hstep : prepareImagesStep gpu (m, s, n) j = (m, insert j s, n) := by
        unfold prepareImagesStep; simp [hc]
      rw [hstep]
      exact ih m _ n h
    | false =>
      have hj : j ≠ id := fun he => by rw [he, h] at hc; cases hc
      cases hg : gpu j with
      | none =>
        have hstep : prepareImagesStep gpu (m, s, n) j = (m, insert j s, n) := by
          unfold prepareImagesStep; simp [hc, hg]
        rw [hstep]
        exact ih m _ n h
      | some sz =>
        have hstep : prepareImagesStep gpu (m, s, n) j
            = (mapInsert m j (PImage.mk n sz), insert j s, n + 1) := by
          unfold prepareImagesStep; simp [hc, hg]
        rw [hstep]
        have h2 : mapContains (mapInsert m j (PImage.mk n sz)) id = true := by
          rw [mapContains_insert_ne m j id _ hj]; exact h
        rw [ih _ _ _ h2]
        exact mapFind?_insert_ne m j id _ hj

/-! ## `prepare_shaders` fold lemmas -/

theorem processFold_queue (env : Nat → BindOutcome) :
    ∀ (l : List (Nat × Nat)) (s : ShaderState),
      (List.foldl (processAsset env) s l).queue
        = s.queue ++ l.filter (fun p => isRetry (env p.2)) := by
  intro l
  induction l with
  | nil => intro s; simp
  | cons p l ih =>
    intro s
    rw [List.foldl_cons, List.filter_cons, ih]
    cases he : env p.2 with
    | ok =>
      have hq : (processAsset env s p).queue = s.queue := by simp [processAsset, he]
      rw [hq]
      simp [isRetry, he]
    | invalidSampler =>
      have hq : (processAsset env s p).queue = s.queue := by simp [processAsset, he]
      rw [hq]
      simp [isRetry, he]
    | retryNextUpdate =>
      have hq : (processAsset env s p).queue = s.queue ++ [p] := by simp [processAsset, he]
      rw [hq]
      simp [isRetry, he]

theorem processFold_find? (env : Nat → BindOutcome) (id : Nat) :
    ∀ (l : List (Nat × Nat)) (s : ShaderState), (∀ p ∈ l, p.1 ≠ id) →
      mapFind? (List.foldl (processAsset env) s l).materials id = mapFind? s.materials id := by
  intro l
  induction l with
  | nil => intro s _; rfl
  | cons p l ih =>
    intro s hall
    rw [List.foldl_cons, ih _ (fun q hq => hall q (List.mem_cons_of_mem p hq))]
    have hne : p.1 ≠ id := hall p (List.mem_cons_self p l)
    cases he : env p.2 with
    | ok =>
      have hm : (processAsset env s p).materials
          = mapInsert s.materials p.1 (PShader.mk s.nonce) := by simp [processAsset, he]
      rw [hm]
      exact mapFind?_insert_ne s.materials p.1 id _ hne
    | invalidSampler =>
      have hm : (processAsset env s p).materials = s.materials := by simp [processAsset, he]
      rw [hm]
    | retryNextUpdate =>
      have hm : (processAsset env s p).materials = s.materials := by simp [processAsset, he]
      rw [hm]

theorem processFold_contains_false (env : Nat → BindOutcome) (id : Nat) :
    ∀ (l : List (Nat × Nat)) (s : ShaderState),
      mapContains s.materials id = false →
      (∀ p ∈ l, p.1 = id → env p.2 = BindOutcome.invalidSampler) →
      mapContains (List.foldl (processAsset env) s l).materials id = false := by
  intro l
  induction l with
  | nil => intro s h _; exact h
  | cons p l ih =>
    intro s h hall
    rw [List.foldl_cons]
    refine ih (processAsset env s p) ?_ (fun q hq => hall q (List.mem_cons_of_mem p hq))
    cases he : env p.2 with
    | ok =>
      have hne : p.1 ≠ id := fun hk => by
        have hcontra := hall p (List.mem_cons_self p l) hk
        rw [he] at hcontra
        cases hcontra
      have hm : (processAsset env s p).materials
          = mapInsert s.materials p.1 (PShader.mk s.nonce) := by simp [processAsset, he]
      rw [hm, mapContains_insert_ne _ _ _ _ hne]
      exact h
    | invalidSampler =>
      have hm : (processAsset env s p).materials = s.materials := by simp [processAsset, he]
      rw [hm]; exact h
    | retryNextUpdate =>
      have hm : (processAsset env s p).materials = s.materials := by simp [processAsset, he]
      rw [hm]; exact h

theorem processFold_contains_true (env : Nat → BindOutcome) (id : Nat) :
    ∀ (l : List (Nat × Nat)) (s : ShaderState),
      mapContains s.materials id = true →
      mapContains (List.foldl (processAsset env) s l).materials id = true := by
  intro l
  induction l with
  | nil => intro s h; exact h
  | cons p l ih =>
    intro s h
    rw [List.foldl_cons]
    refine ih (processAsset env s p) ?_
    cases he : env p.2 with
    | ok =>
      have hm : (processAsset env s p).materials
          = mapInsert s.materials p.1 (PShader.mk s.nonce) := by simp [processAsset, he]
      rw [hm]
      exact mapContains_insert_of _ _ _ _ h
    | invalidSampler =>
      have hm : (processAsset env s p).materials = s.materials := by simp [processAsset, he]
      rw [hm]; exact h
    | retryNextUpdate =>
      have hm : (processAsset env s p).materials = s.materials := by simp [processAsset, he]
      rw [hm]; exact h

theorem processFold_insert (env : Nat → BindOutcome) (id : Nat) :
    ∀ (l : List (Nat × Nat)) (s : ShaderState) (p0 : Nat × Nat),
      p0 ∈ l → p0.1 = id → env p0.2 = BindOutcome.ok →
      mapContains (List.foldl (processAsset env) s l).materials id = true := by
  intro l
  induction l with
  | nil => intro s p0 hmem _ _; exact absurd hmem (List.not_mem_nil p0)
  | cons q l ih =>
    intro s p0 hmem hkey hok
    rw [List.foldl_cons]
    rcases List.mem_cons.mp hmem with he | hm
    · subst he
      apply processFold_contains_true env id l
      have hmat : (processAsset env s p0).materials
          = mapInsert s.materials p0.1 (PShader.mk s.nonce) := by simp [processAsset, hok]
      rw [hmat, hkey]
      exact mapContains_insert_self _ _ _
    · exact ih _ p0 hm hkey hok

/-! ## `cs_extract` lemmas -/

theorem extractStep_not_changed (s : Finset Nat × List Nat) (e : SEvent) (id : Nat)
    (he : isChangeOf e id = false) (h : id ∉ s.1) : id ∉ (extractStep s e).1 := by
  cases e with
  | added i =>
    have hne : i ≠ id := by simpa [isChangeOf] using he
    simp only [extractStep, Finset.mem_insert]
    rintro (h1 | h2)
    · exact hne h1.symm
    · exact h h2
  | modified i =>
    have hne : i ≠ id := by simpa [isChangeOf] using he
    simp only [extractStep, Finset.mem_insert]
    rintro (h1 | h2)
    · exact hne h1.symm
    · exact h h2
  | loadedWithDeps i =>
    have hne : i ≠ id := by simpa [isChangeOf] using he
    simp only [extractStep, Finset.mem_insert]
    rintro (h1 | h2)
    · exact hne h1.symm
    · exact h h2
  | removed i =>
    simp only [extractStep]
    intro hmem
    exact h (Finset.mem_of_mem_erase hmem)
  | unused i =>
    simp only [extractStep]
    intro hmem
    exact h (Finset.mem_of_mem_erase hmem)

theorem extractFold_not_changed (id : Nat) :
    ∀ (l : List SEvent) (s : Finset Nat × List Nat),
      (∀ e ∈ l, isChangeOf e id = false) → id ∉ s.1 →
      id ∉ (l.foldl extractStep s).1 := by
  intro l
  induction l with
  | nil => intro s _ h; exact h
  | cons e l ih =>
    intro s hall h
    rw [List.foldl_cons]
    exact ih _ (fun e2 he2 => hall e2 (List.mem_cons_of_mem e he2))
      (extractStep_not_changed s e id (hall e (List.mem_cons_self e l)) h)

theorem extractFold_removed_mem (id : Nat) :
    ∀ (l : List SEvent) (s : Finset Nat × List Nat),
      id ∈ s.2 → id ∈ (l.foldl extractStep s).2 := by
  intro l
  induction l with
  | nil => intro s h; exact h
  | cons e l ih =>
    intro s h
    rw [List.foldl_cons]
    refine ih _ ?_
    cases e with
    | added i => exact h
    | modified i => exact h
    | loadedWithDeps i => exact h
    | removed i => exact List.mem_append.mpr (Or.inl h)
    | unused i => exact List.mem_append.mpr (Or.inl h)

theorem imageStep_mem (bufs s : Finset Nat) (id i : Nat) :
    (id ∈ (if i ∈ bufs then insert i s else s))
      ↔ (id ∈ s ∨ (id ∈ bufs ∧ (i == id) = true)) := by
  by_cases hii : i = id
  · subst hii
    by_cases hb : i ∈ bufs <;> simp [hb, Finset.mem_insert]
  · have hne : (i == id) = false := by simpa using hii
    by_cases hb : i ∈ bufs <;> simp [hb, Finset.mem_insert, hne, hii]
    intro h1
    exact absurd h1.symm hii

theorem invalidImages_mem_aux (bufs : Finset Nat) (id : Nat) :
    ∀ (l : List IEvent) (s : Finset Nat),
      (id ∈ l.foldl (imageStep bufs) s)
        ↔ (id ∈ s ∨ (id ∈ bufs ∧ l.any (fun e => touchesImage e id) = true)) := by
  intro l
  induction l with
  | nil => intro s; simp
  | cons e l ih =>
    intro s
    rw [List.foldl_cons, ih, List.any_cons]
    cases e with
    | added i =>
      rw [show imageStep bufs s (IEvent.added i) = if i ∈ bufs then insert i s else s from rfl]
      rw [imageStep_mem bufs s id i]
      simp only [touchesImage, Bool.or_eq_true]
      tauto
    | modified i =>
      rw [show imageStep bufs s (IEvent.modified i) = if i ∈ bufs then insert i s else s from rfl]
      rw [imageStep_mem bufs s id i]
      simp only [touchesImage, Bool.or_eq_true]
      tauto
    | removed i =>
      rw [show imageStep bufs s (IEvent.removed i) = if i ∈ bufs then insert i s else s from rfl]
      rw [imageStep_mem bufs s id i]
      simp only [touchesImage, Bool.or_eq_true]
      tauto
    | loadedWithDeps i =>
      rw [show imageStep bufs s (IEvent.loadedWithDeps i)
            = if i ∈ bufs then insert i s else s from rfl]
      rw [imageStep_mem bufs s id i]
      simp only [touchesImage, Bool.or_eq_true]
      tauto
    | unused i =>
      simp [imageStep, touchesImage]

/-! ## `prepare_shaders` frame-level lemmas -/

theorem prepareShaders_queue (env : Nat → BindOutcome) (ex : List (Nat × Nat))
    (rm : List Nat) (st : ShaderState) :
    (prepareShaders env ex rm st).queue
      = st.queue.filter (fun p => isRetry (env p.2))
        ++ ex.filter (fun p => isRetry (env p.2)) := by
  show (List.foldl (processAsset env)
      (removedPhase rm (retryPhase env st)) ex).queue = _
  rw [processFold_queue env ex (removedPhase rm (retryPhase env st))]
  have h1 : (removedPhase rm (retryPhase env st)).queue = (retryPhase env st).queue := rfl
  rw [h1]
  show (List.foldl (processAsset env) { st with queue := [] } st.queue).queue ++ _ = _
  rw [processFold_queue env st.queue { st with queue := [] }]
  rfl

theorem prepareShaders_permanent_step (env : Nat → BindOutcome) (ex : List (Nat × Nat))
    (rm : List Nat) (st : ShaderState) (id : Nat)
    (h1 : mapContains st.materials id = false)
    (h2 : ∀ p ∈ st.queue, p.1 ≠ id)
    (h3 : ∀ p ∈ ex, p.1 = id → env p.2 = BindOutcome.invalidSampler) :
    mapContains (prepareShaders env ex rm st).materials id = false
    ∧ ∀ p ∈ (prepareShaders env ex rm st).queue, p.1 ≠ id := by
  constructor
  · have hret : mapContains (retryPhase env st).materials id = false :=
      processFold_contains_false env id st.queue { st with queue := [] } h1
        (fun p hp hk => absurd hk (h2 p hp))
    have hrem : mapContains (removedPhase rm (retryPhase env st)).materials id = false :=
      mapContains_eraseFold_false id rm _ hret
    exact processFold_contains_false env id ex _ hrem h3
  · intro p hp
    rw [prepareShaders_queue] at hp
    rcases List.mem_append.mp hp with hl | hr
    · exact h2 p (List.mem_filter.mp hl).1
    · rcases List.mem_filter.mp hr with ⟨hpe, hret⟩
      intro hk
      rw [h3 p hpe hk] at hret
      simp [isRetry] at hret

theorem queue_mem_preserved (env : Nat → BindOutcome) (ex : List (Nat × Nat))
    (rm : List Nat) (st : ShaderState) (id a : Nat)
    (hq : (id, a) ∈ st.queue) (hr : isRetry (env a) = true) :
    (id, a) ∈ (prepareShaders env ex rm st).queue := by
  rw [prepareShaders_queue]
  exact List.mem_append.mpr (Or.inl (List.mem_filter.mpr ⟨hq, hr⟩))

theorem queue_mem_runFrames (id a : Nat) :
    ∀ (mid : List SFrame) (st : ShaderState), (id, a) ∈ st.queue →
      (∀ f ∈ mid, f.env a = BindOutcome.retryNextUpdate) →
      (id, a) ∈ (runShaders mid st).queue := by
  intro mid
  induction mid with
  | nil => intro st hq _; exact hq
  | cons f fs ih =>
    intro st hq hmid
    exact ih (stepFrame st f)
      (queue_mem_preserved f.env f.extracted f.removed st id a hq
        (by rw [hmid f (List.mem_cons_self f fs)]; rfl))
      (fun g hg => hmid g (List.mem_cons_of_mem f hg))

theorem retry_success_inserted (env : Nat → BindOutcome) (ex : List (Nat × Nat))
    (rm : List Nat) (st : ShaderState) (id a : Nat)
    (hq : (id, a) ∈ st.queue) (hok : env a = BindOutcome.ok) (hrm : id ∉ rm) :
    mapContains (prepareShaders env ex rm st).materials id = true := by
  show mapContains (List.foldl (processAsset env)
      (removedPhase rm (retryPhase env st)) ex).materials id = true
  apply processFold_contains_true env id ex
  show mapContains (List.foldl mapErase (retryPhase env st).materials rm) id = true
  rw [mapContains_eraseFold id rm _ hrm]
  exact processFold_insert env id st.queue { st with queue := [] } (id, a) hq rfl hok

theorem runUpdates_update : ∀ bs : List Bool, runUpdates bs NodeState.update = NodeState.update := by
  intro bs
  induction bs with
  | nil => rfl
  | cons c cs ih => exact ih

/-! ## Claim theorems -/

/-- C3: each `prepare_shaders` pass is exactly the composition of three
phases in order — (1) re-attempt the carried-over transient-failure queue
in FIFO order, with renewed transient failures re-queued at the end of the
new queue (the retry phase leaves exactly the still-transient entries, in
their original order), (2) remove the entries of assets removed this frame,
(3) attempt preparation of every newly changed asset. -/
theorem prepare_shaders_three_phases (env : Nat → BindOutcome)
    (extracted : List (Nat × Nat)) (removed : List Nat) (st : ShaderState) :
    prepareShaders env extracted removed st
      = changedPhase env extracted (removedPhase removed (retryPhase env st))
    ∧ (retryPhase env st).queue = st.queue.filter (fun p => isRetry (env p.2)) := by
  constructor
  · rfl
  · show (List.foldl (processAsset env) { st with queue := [] } st.queue).queue = _
    rw [processFold_queue env st.queue { st with queue := [] }]
    rfl

/-- C5: the dispatch node's state is monotone — once in `Update` (the
spec's "Ready") no sequence of update steps leaves it, the
`Loading → Update` transition fires when the cached pipeline state is ok,
and while `Loading` the run step records no commands at all (no bind-group
bindings, no dispatches) and returns success. -/
theorem node_state_monotone (bs : List Bool) (avail : Bool)
    (q : List ComputeShaderInfo) (b : Bool) :
    runUpdates bs NodeState.update = NodeState.update
    ∧ nodeUpdate b NodeState.update = NodeState.update
    ∧ nodeUpdate true NodeState.loading = NodeState.update
    ∧ nodeRun NodeState.loading avail q = ([], Except.ok ()) :=
  ⟨runUpdates_update bs, rfl, rfl, rfl⟩

/-- C6: while the node state is `Update` (Ready), if the compiled pipeline
cannot be retrieved from the pipeline cache, then for every queue entry the
pipeline binding and the workgroup dispatch are skipped and an error is
logged, all entries are still processed, and the node returns success. -/
theorem ready_missing_pipeline_skips (q : List ComputeShaderInfo) :
    nodeRun NodeState.update false q
      = (q.flatMap (fun s => [Cmd.setBindGroup 0 s.textureBindGroup,
          Cmd.setBindGroup 1 s.userBindGroup, Cmd.logError]), Except.ok ())
    ∧ List.all (nodeRun NodeState.update false q).1
        (fun c => !(isPipelineOrDispatch c)) = true := by
  constructor
  · rfl
  · show List.all (q.flatMap (runEntry false)) (fun c => !(isPipelineOrDispatch c)) = true
    induction q with
    | nil => rfl
    | cons s qs ih =>
      rw [List.flatMap_cons, List.all_append, ih]
      rfl

/-- C9: the invalidated-image set produced by extraction contains exactly
the image identities touched by an added/modified/removed/
loaded-with-dependencies image event this frame that are also referenced by
a current pixel-buffer entity carrying a shader handle of this type. -/
theorem invalidated_images_characterization (buffers : List Nat)
    (events : List IEvent) (id : Nat) :
    id ∈ invalidImages buffers events
      ↔ id ∈ bufferSet buffers ∧ events.any (fun e => touchesImage e id) = true := by
  show id ∈ events.foldl (imageStep (bufferSet buffers)) ∅ ↔ _
  rw [invalidImages_mem_aux (bufferSet buffers) id events ∅]
  simp

/-- C1 (amended): after a `prepare_images` pass, every surviving key is
live, or the pass ended with the prepared-map size equal to the live-set
size (in which case the prune was skipped and a stale key may survive). -/
theorem prune_conditional (invalid : Finset Nat) (buffers : List Nat)
    (gpu : Nat → Option UVec2) (st : ImageState) (id : Nat)
    (h : mapContains (prepareImages invalid buffers gpu st).prepared id = true) :
    id ∈ bufferSet buffers
    ∨ mapLen (prepareImages invalid buffers gpu st).prepared = (bufferSet buffers).card := by
  have hseen : (buffers.foldl (prepareImagesStep gpu)
      (mapRetain st.prepared (fun k => decide (k ∉ invalid)), ∅, st.nonce)).2.1
      = bufferSet buffers :=
    imagesFold_seen gpu buffers _ ∅ st.nonce
  rcases htriple : buffers.foldl (prepareImagesStep gpu)
      (mapRetain st.prepared (fun k => decide (k ∉ invalid)), ∅, st.nonce)
    with ⟨m1, seen, n1⟩
  rw [htriple] at hseen
  have hkey : (prepareImages invalid buffers gpu st).prepared
      = if mapLen m1 ≠ seen.card then mapRetain m1 (fun k => decide (k ∈ seen)) else m1 := by
    simp only [prepareImages]
    rw [htriple]
  by_cases hlen : mapLen m1 ≠ seen.card
  · rw [hkey, if_pos hlen] at h
    rcases mapContains_retain (fun k => decide (k ∈ seen)) id m1 h with ⟨_, hdec⟩
    left
    rw [← hseen]
    exact of_decide_eq_true hdec
  · right
    rw [hkey, if_neg hlen, ← hseen]
    exact Classical.not_not.mp hlen

/-- C1 counterexample: after a first frame prepares images 0 and 2, a
second frame whose live set is {0, 1} (with image 1 unresolvable and no
invalidation) keeps the stale entry for image 2, because the map size and
the live-set size coincide and the prune is skipped. This refutes the claim
that every surviving key is live on every frame sequence. -/
theorem prune_skip_counterexample :
    mapContains cxImgState2.prepared 2 = true ∧ 2 ∉ bufferSet [0, 1] := by
  decide

/-- C1 witness for `prune_conditional` at a concrete input. -/
theorem prune_conditional_witness :
    0 ∈ bufferSet [0]
    ∨ mapLen (prepareImages ∅ [0] (fun _ => some (UVec2.mk 8 8))
        (ImageState.mk [] 0)).prepared = (bufferSet [0]).card :=
  prune_conditional ∅ [0] (fun _ => some (UVec2.mk 8 8)) (ImageState.mk [] 0) 0 (by decide)

/-- C2 (amended): removal wins only against the change events that precede
it.  If no change event for an identity arrives after a removal event for
it, the identity is not extracted as changed and does appear in the removed
list. (The original claim — order-independence — is refuted by
`removal_then_change_counterexample`.) -/
theorem removal_wins_when_last (l1 l2 : List SEvent) (e : SEvent) (id : Nat)
    (assets : Nat → Option Nat)
    (hrem : isRemovalOf e id = true)
    (hl2 : ∀ e2 ∈ l2, isChangeOf e2 id = false) :
    id ∉ extractedIds (l1 ++ e :: l2) assets
    ∧ id ∈ (updateShaderCache (l1 ++ e :: l2)).2 := by
  have hsplit : updateShaderCache (l1 ++ e :: l2)
      = l2.foldl extractStep (extractStep (updateShaderCache l1) e) := by
    show (l1 ++ e :: l2).foldl extractStep (∅, []) = _
    rw [List.foldl_append, List.foldl_cons]
    rfl
  have hstep1 : id ∉ (extractStep (updateShaderCache l1) e).1
      ∧ id ∈ (extractStep (updateShaderCache l1) e).2 := by
    cases e with
    | added i => simp [isRemovalOf] at hrem
    | modified i => simp [isRemovalOf] at hrem
    | loadedWithDeps i => simp [isRemovalOf] at hrem
    | removed i =>
      have hi : i = id := by simpa [isRemovalOf] using hrem
      subst hi
      exact ⟨Finset.not_mem_erase i _,
        List.mem_append.mpr (Or.inr (List.mem_singleton.mpr rfl))⟩
    | unused i =>
      have hi : i = id := by simpa [isRemovalOf] using hrem
      subst hi
      exact ⟨Finset.not_mem_erase i _,
        List.mem_append.mpr (Or.inr (List.mem_singleton.mpr rfl))⟩
  constructor
  · intro hmem
    simp only [extractedIds] at hmem
    rw [hsplit] at hmem
    exact extractFold_not_changed id l2 _ hl2 hstep1.1 (Finset.mem_filter.mp hmem).1
  · rw [hsplit]
    exact extractFold_removed_mem id l2 _ hstep1.2

/-- C2 counterexample: with the event order [Removed 5, Added 5] and asset
5 still present in `Assets<S>`, identity 5 is extracted as changed *and*
appears in the removed list — refuting the claim that removal wins
regardless of event order. -/
theorem removal_then_change_counterexample :
    5 ∈ extractedIds [SEvent.removed 5, SEvent.added 5] (fun k => if k = 5 then some 1 else none)
    ∧ 5 ∈ (updateShaderCache [SEvent.removed 5, SEvent.added 5]).2 := by
  decide

/-- C2 witness for `removal_wins_when_last` at a concrete input. -/
theorem removal_wins_when_last_witness :
    3 ∉ extractedIds [SEvent.removed 3, SEvent.added 4] (fun _ => some 0)
    ∧ 3 ∈ (updateShaderCache [SEvent.removed 3, SEvent.added 4]).2 :=
  removal_wins_when_last [] [SEvent.added 4] (SEvent.removed 3) 3 (fun _ => some 0)
    (by decide) (by decide)

/-- C4 (amended): a shader asset all of whose changed events fail with the
permanent error is absent from the Prepared Shader Entries map on every
frame — provided it was not already present in the map and not pending on
the transient-retry queue — and it is never placed on the retry queue.
(The original claim, without the proviso, is refuted by
`permanent_failure_stale_entry`.) -/
theorem permanent_failure_containment :
    ∀ (fs : List SFrame) (st : ShaderState) (id : Nat),
      mapContains st.materials id = false →
      (∀ p ∈ st.queue, p.1 ≠ id) →
      (∀ f ∈ fs, ∀ p ∈ f.extracted, p.1 = id → f.env p.2 = BindOutcome.invalidSampler) →
      mapContains (runShaders fs st).materials id = false
      ∧ ∀ p ∈ (runShaders fs st).queue, p.1 ≠ id := by
  intro fs
  induction fs with
  | nil => intro st id h1 h2 _; exact ⟨h1, h2⟩
  | cons f fs ih =>
    intro st id h1 h2 h3
    have hstep := prepareShaders_permanent_step f.env f.extracted f.removed st id h1 h2
      (h3 f (List.mem_cons_self f fs))
    exact ih (stepFrame st f) id hstep.1 hstep.2
      (fun g hg => h3 g (List.mem_cons_of_mem f hg))

/-- C4 counterexample: asset 7 is prepared successfully from snapshot 1;
the next frame a changed event with snapshot 2 fails with the permanent
error, yet identity 7 is still present in the Prepared Shader Entries map
of that frame (the stale entry is not removed) — refuting the claim that a
permanently failing asset is absent from the map on the frame of the
failure. -/
theorem permanent_failure_stale_entry :
    mapContains ((prepareShaders
        (fun a => if a = 2 then BindOutcome.invalidSampler else BindOutcome.ok)
        [(7, 2)] [] cxPermState1).materials) 7 = true := by
  decide

/-- C4 witness for `permanent_failure_containment` at a concrete input. -/
theorem permanent_failure_containment_witness :
    mapContains (runShaders [SFrame.mk (fun _ => BindOutcome.invalidSampler) [(3, 9)] []]
        (ShaderState.mk [] [] 0)).materials 3 = false
    ∧ ∀ p ∈ (runShaders [SFrame.mk (fun _ => BindOutcome.invalidSampler) [(3, 9)] []]
        (ShaderState.mk [] [] 0)).queue, p.1 ≠ 3 :=
  permanent_failure_containment [SFrame.mk (fun _ => BindOutcome.invalidSampler) [(3, 9)] []]
    (ShaderState.mk [] [] 0) 3 (by decide) (by decide) (by decide)

/-- C7 (amended): prepared entries are reused for unchanged inputs — a
shader asset with no changed event, no removal, *and no pending entry on
the transient-retry queue* keeps its exact Prepared Shader Entry across a
`prepare_shaders` pass, and an image identity that is not invalidated and
stays live keeps its exact Prepared Texture Entry across a `prepare_images`
pass. (Without the retry-queue proviso the claim is refuted by
`retry_rebuild_counterexample`.) -/
theorem unchanged_entries_reused :
    (∀ (env : Nat → BindOutcome) (ex : List (Nat × Nat)) (rm : List Nat)
        (st : ShaderState) (id : Nat),
        (∀ p ∈ st.queue, p.1 ≠ id) → (∀ p ∈ ex, p.1 ≠ id) → id ∉ rm →
        mapFind? (prepareShaders env ex rm st).materials id = mapFind? st.materials id)
    ∧ (∀ (invalid : Finset Nat) (buffers : List Nat) (gpu : Nat → Option UVec2)
        (st : ImageState) (id : Nat),
        mapContains st.prepared id = true → id ∉ invalid → id ∈ bufferSet buffers →
        mapFind? (prepareImages invalid buffers gpu st).prepared id
          = mapFind? st.prepared id) := by
  constructor
  · intro env ex rm st id hq hex hrm
    show mapFind? (List.foldl (processAsset env)
        (removedPhase rm (retryPhase env st)) ex).materials id = _
    rw [processFold_find? env id ex _ hex]
    show mapFind? (List.foldl mapErase (retryPhase env st).materials rm) id = _
    rw [mapFind?_eraseFold id rm _ hrm]
    show mapFind? (List.foldl (processAsset env)
        { st with queue := [] } st.queue).materials id = _
    rw [processFold_find? env id st.queue _ hq]
  · intro invalid buffers gpu st id hc hinv hlive
    have hret : mapFind? (mapRetain st.prepared (fun k => decide (k ∉ invalid))) id
        = mapFind? st.prepared id :=
      mapFind?_retain (fun k => decide (k ∉ invalid)) id (decide_eq_true hinv) st.prepared
    have hc0 : mapContains (mapRetain st.prepared (fun k => decide (k ∉ invalid))) id = true := by
      show (mapFind? (mapRetain st.prepared (fun k => decide (k ∉ invalid))) id).isSome = true
      rw [hret]
      exact hc
    have hseen := imagesFold_seen gpu buffers
      (mapRetain st.prepared (fun k => decide (k ∉ invalid))) ∅ st.nonce
    have hfold := imagesFold_find? gpu id buffers
      (mapRetain st.prepared (fun k => decide (k ∉ invalid))) ∅ st.nonce hc0
    rcases htriple : buffers.foldl (prepareImagesStep gpu)
        (mapRetain st.prepared (fun k => decide (k ∉ invalid)), ∅, st.nonce)
      with ⟨m1, seen, n1⟩
    rw [htriple] at hseen hfold
    have hkey : (prepareImages invalid buffers gpu st).prepared
        = if mapLen m1 ≠ seen.card then mapRetain m1 (fun k => decide (k ∈ seen)) else m1 := by
      simp only [prepareImages]
      rw [htriple]
    rw [hkey]
    have hseenmem : (decide (id ∈ seen)) = true := by
      rw [show seen = bufferSet buffers from hseen]
      exact decide_eq_true hlive
    by_cases hlen : mapLen m1 ≠ seen.card
    · rw [if_pos hlen, mapFind?_retain (fun k => decide (k ∈ seen)) id hseenmem m1, hfold]
      exact hret
    · rw [if_neg hlen, hfold]
      exact hret

/-- C7 counterexample: asset 7 is prepared from snapshot 1, a change to
snapshot 2 fails transiently (queued), and in the following frame — with no
changed event and no removal — the queued retry succeeds and rebuilds the
entry, so the Prepared Shader Entry after that frame differs from the entry
before it. This refutes the claim as stated. -/
theorem retry_rebuild_counterexample :
    mapFind? ((prepareShaders (fun _ => BindOutcome.ok) [] [] cxRetryState2).materials) 7
      ≠ mapFind? cxRetryState2.materials 7 := by
  decide

/-- C7 witness for `unchanged_entries_reused` at concrete inputs. -/
theorem unchanged_entries_reused_witness :
    mapFind? (prepareShaders (fun _ => BindOutcome.ok) [] []
        (ShaderState.mk [(7, PShader.mk 0)] [] 1)).materials 7
      = mapFind? (ShaderState.mk [(7, PShader.mk 0)] [] 1).materials 7
    ∧ mapFind? (prepareImages ∅ [3] (fun _ => none)
        (ImageState.mk [(3, PImage.mk 5 (UVec2.mk 8 8))] 6)).prepared 3
      = mapFind? (ImageState.mk [(3, PImage.mk 5 (UVec2.mk 8 8))] 6).prepared 3 :=
  ⟨unchanged_entries_reused.1 (fun _ => BindOutcome.ok) [] []
      (ShaderState.mk [(7, PShader.mk 0)] [] 1) 7 (by decide) (by decide) (by decide),
    unchanged_entries_reused.2 ∅ [3] (fun _ => none)
      (ImageState.mk [(3, PImage.mk 5 (UVec2.mk 8 8))] 6) 3 (by decide) (by decide) (by decide)⟩

/-- C8: with `workgroups(size) = size / 8` (componentwise) and a prepared
target of size 256×256, the queue entry carries workgroup extents (32, 32)
and the node dispatches with extents (32, 32, 1); moreover every dispatch
command ever recorded by the node has Z extent 1. -/
theorem invert_dispatch_scenario :
    csQueueBindGroup [(0, 1)] [(0, PImage.mk 10 (UVec2.mk 256 256))] [(1, PShader.mk 20)]
        (fun s => UVec2.mk (s.x / 8) (s.y / 8))
      = [ComputeShaderInfo.mk 10 20 (UVec2.mk 32 32)]
    ∧ (nodeRun NodeState.update true [ComputeShaderInfo.mk 10 20 (UVec2.mk 32 32)]).1
      = [Cmd.setBindGroup 0 10, Cmd.setBindGroup 1 20, Cmd.setPipeline, Cmd.dispatch 32 32 1]
    ∧ ∀ (st : NodeState) (avail : Bool) (q : List ComputeShaderInfo),
        List.all (nodeRun st avail q).1 dispatchDepthOne = true := by
  refine ⟨by decide, by decide, ?_⟩
  intro st avail q
  cases st with
  | loading => rfl
  | update =>
    show List.all (q.flatMap (runEntry avail)) dispatchDepthOne = true
    induction q with
    | nil => rfl
    | cons s qs ih =>
      rw [List.flatMap_cons, List.all_append, ih]
      have hentry : (runEntry avail s).all dispatchDepthOne = true := by
        cases avail <;> simp [runEntry, dispatchDepthOne]
      rw [hentry]
      rfl

/-- C10: removal does not purge the transient-retry queue — a queued
(identity, snapshot) pair whose retry fails transiently in the frame that
processes the identity's removal stays queued through any number of further
transiently-failing frames, and a later frame in which its `as_bind_group`
succeeds (with the identity not removed again) inserts the identity into
the Prepared Shader Entries map, with no new changed event required. -/
theorem removal_preserves_retry_queue
    (f1 fN : SFrame) (mid : List SFrame) (st : ShaderState) (id a : Nat)
    (hq : (id, a) ∈ st.queue)
    (h1 : f1.env a = BindOutcome.retryNextUpdate)
    (hrm1 : id ∈ f1.removed)
    (hmid : ∀ f ∈ mid, f.env a = BindOutcome.retryNextUpdate)
    (hok : fN.env a = BindOutcome.ok)
    (hrmN : id ∉ fN.removed) :
    (id, a) ∈ (runShaders mid (stepFrame st f1)).queue
    ∧ mapContains (stepFrame (runShaders mid (stepFrame st f1)) fN).materials id = true := by
  have hq1 : (id, a) ∈ (stepFrame st f1).queue :=
    queue_mem_preserved f1.env f1.extracted f1.removed st id a hq (by rw [h1]; rfl)
  have hq2 := queue_mem_runFrames id a mid (stepFrame st f1) hq1 hmid
  exact ⟨hq2, retry_success_inserted fN.env fN.extracted fN.removed _ id a hq2 hok hrmN⟩

/-- C10 witness for `removal_preserves_retry_queue` at a concrete input:
(7, 5) is queued, frame 1 re-fails it transiently while processing the
removal of 7, and the next frame's success inserts 7 into the map. -/
theorem removal_preserves_retry_queue_witness :
    (7, 5) ∈ (runShaders [] (stepFrame (ShaderState.mk [] [(7, 5)] 0)
        (SFrame.mk (fun _ => BindOutcome.retryNextUpdate) [] [7]))).queue
    ∧ mapContains (stepFrame (runShaders [] (stepFrame (ShaderState.mk [] [(7, 5)] 0)
        (SFrame.mk (fun _ => BindOutcome.retryNextUpdate) [] [7])))
        (SFrame.mk (fun _ => BindOutcome.ok) [] [])).materials 7 = true :=
  removal_preserves_retry_queue
    (SFrame.mk (fun _ => BindOutcome.retryNextUpdate) [] [7])
    (SFrame.mk (fun _ => BindOutcome.ok) [] [])
    [] (ShaderState.mk [] [(7, 5)] 0) 7 5
    (by decide) (by decide) (by decide) (by decide) (by decide) (by decide)
